import Mathlib

/-
  Verification of the change-detection-and-reliable-publish pipeline of
  near_realtime_ingestion_2.py: canonical product signature, snapshot state,
  change detector, event builder, publisher with bounded retry and dead
  letter, and atomic snapshot persistence.

  Machine integers do not arise (Python ints are unbounded); records are
  modeled with Nat and String fields. External collaborators (hashlib.md5,
  the Pub/Sub broker, the file system) are modeled as explicit parameters or
  small state machines, as noted at each definition.
-/

set_option maxRecDepth 8192

-- ===========================================================================
-- Data model
-- ===========================================================================

/-- One line item of a cart's products sub-collection, as returned by the
carts API: \x7b"productId": ..., "quantity": ...\x7d. -/
structure Product where
  productId : Nat
  quantity : Nat
  deriving DecidableEq

/-- A fetched cart record. Python keys ids by str(cart["id"]); str is
injective on ints, so the id is modeled numerically. `v` models the optional
"__v" field (cart.get("__v", 0)). -/
structure Cart where
  id : Nat
  userId : Nat
  date : String
  products : List Product
  v : Nat
  deriving DecidableEq

/-- Per-id projection stored in the snapshot: date, userId, products. -/
structure CartEntry where
  date : String
  userId : Nat
  products : List Product
  deriving DecidableEq

/-- state["metadata"]. -/
structure Metadata where
  created_at : String
  last_update : Option String
  poll_count : Nat
  run_id : Option String
  deriving DecidableEq

/-- The persisted snapshot: carts mapping plus metadata. The mapping is a
Python dict (string keys str(id), insertion ordered), modeled as an
association list keyed by the numeric id. -/
structure PipelineState where
  carts : List (Nat × CartEntry)
  metadata : Metadata
  deriving DecidableEq

-- ===========================================================================
-- Decimal printing (Python str(n)) and the JSON serializer
-- ===========================================================================

/-- Little-endian decimal digits of a natural number, with explicit structural
fuel (the number itself bounds the recursion depth). -/
def digitsRec : Nat → Nat → List Nat
  | 0, _ => []
  | _ + 1, 0 => []
  | fuel + 1, n + 1 => ((n + 1) % 10) :: digitsRec fuel ((n + 1) / 10)

/-- Little-endian decimal digits of n. -/
def natDigits (n : Nat) : List Nat := digitsRec n n

/-- Value of a little-endian digit list (used to invert `natDigits`). -/
def fromDigits : List Nat → Nat
  | [] => 0
  | d :: ds => d + 10 * fromDigits ds

/-- Characters of the decimal representation of n (big-endian). -/
def natChars (n : Nat) : List Char :=
  if n = 0 then ['0'] else ((natDigits n).map Nat.digitChar).reverse

/-- Decimal string of a natural number, as Python's str(n). -/
def natStr (n : Nat) : String := String.mk (natChars n)

/-- Characters of the JSON object json.dumps produces for one product dict
with sort_keys=True ("productId" sorts before "quantity"; default separators
", " and ": "). -/
def prodChars (p : Product) : List Char :=
  "\x7b\"productId\": ".data ++ (natStr p.productId).data ++
    ", \"quantity\": ".data ++ (natStr p.quantity).data ++ ['\x7d']

/-- Characters following the first product in the serialized JSON array:
json.dumps joins items with ", " and closes with "]". -/
def listTail : List Product → List Char
  | [] => [']']
  | p :: ps => ',' :: ' ' :: (prodChars p ++ listTail ps)

/-- Characters after the opening "[" of the serialized JSON array. -/
def listBody : List Product → List Char
  | [] => [']']
  | p :: ps => prodChars p ++ listTail ps

/-- json.dumps of a product list: "[" then the items joined by ", " then "]".
An empty list serializes to "[]". -/
def dumpsProducts (ps : List Product) : String :=
  String.mk ('[' :: listBody ps)

/-- Comparison used by sorted(products, key=lambda p: p["productId"]). -/
def prodLe (p q : Product) : Prop := p.productId ≤ q.productId

instance : DecidableRel prodLe := fun p q => Nat.decLe p.productId q.productId

instance : IsTotal Product prodLe := ⟨fun a b => Nat.le_total a.productId b.productId⟩

instance : IsTrans Product prodLe := ⟨fun _ _ _ hab hbc => Nat.le_trans hab hbc⟩

/-- Strict productId comparison (used to reason about duplicate-free sorts). -/
def prodLt (p q : Product) : Prop := p.productId < q.productId

instance : IsAntisymm Product prodLt :=
  ⟨fun _ _ h1 h2 => absurd (Nat.lt_trans h1 h2) (Nat.lt_irrefl _)⟩

/-- Source: `calculate_products_signature` — stable sort by productId, then
serialize with deterministic key ordering (json.dumps(..., sort_keys=True)).
`List.insertionSort` is a stable sort, matching Python's stable sorted. -/
def calculate_products_signature (products : List Product) : String :=
  dumpsProducts (List.insertionSort prodLe products)

/-- Source: `products_have_changed` — signatures differ. -/
def products_have_changed (old_products new_products : List Product) : Bool :=
  calculate_products_signature old_products != calculate_products_signature new_products

-- ===========================================================================
-- Snapshot mapping operations (Python dict on string keys)
-- ===========================================================================

/-- Python dict lookup state["carts"][k]. -/
def findEntry : List (Nat × CartEntry) → Nat → Option CartEntry
  | [], _ => none
  | (k', v) :: rest, k => if k' = k then some v else findEntry rest k

/-- Python dict assignment state["carts"][k] = v: update in place when the key
is present, else append (dicts preserve insertion order). -/
def insertCart : List (Nat × CartEntry) → Nat → CartEntry → List (Nat × CartEntry)
  | [], k, v => [(k, v)]
  | (k', v') :: rest, k, v =>
    if k' = k then (k, v) :: rest else (k', v') :: insertCart rest k v

/-- The projection stored in the snapshot for a fetched cart. -/
def entryOf (c : Cart) : CartEntry := ⟨c.date, c.userId, c.products⟩

/-- The classified change set returned by the detector. -/
structure Changes where
  new : List Cart
  modified : List Cart
  deleted : List Cart
  unchanged : List Cart
  is_cold_start : Bool
  deriving DecidableEq

/-- Upsert phase of `compare_and_detect_changes` (the for-cart-in-api_carts
loop): threads the mutated carts mapping and returns it together with the
new, modified and unchanged lists in processing order. On a modification the
source overwrites only "date" and "products", keeping the stored "userId". -/
def upsertLoop (m : List (Nat × CartEntry)) :
    List Cart → List (Nat × CartEntry) × List Cart × List Cart × List Cart
  | [] => (m, [], [], [])
  | c :: cs =>
    match findEntry m c.id with
    | none =>
      let r := upsertLoop (insertCart m c.id (entryOf c)) cs
      (r.1, c :: r.2.1, r.2.2.1, r.2.2.2)
    | some old =>
      if old.date != c.date || products_have_changed old.products c.products then
        let r := upsertLoop (insertCart m c.id ⟨c.date, old.userId, c.products⟩) cs
        (r.1, r.2.1, c :: r.2.2.1, r.2.2.2)
      else
        let r := upsertLoop m cs
        (r.1, r.2.1, r.2.2.1, c :: r.2.2.2)

/-- Source: `compare_and_detect_changes` — classifies the fetch against the
snapshot and mutates the carts mapping. `now` is the detection-time timestamp
(datetime.now().isoformat()), passed explicitly. Cold start is
state["metadata"]["last_update"] is None. On a warm poll the deletion phase
iterates state_ids - api_ids (a Python set; modeled in stored-map order — the
claims are insensitive to that order) and the synthetic deleted record is
built from the last stored projection with `now` as its date and __v = 0. -/
def compare_and_detect_changes (now : String) (state : PipelineState)
    (api_carts : List Cart) : Changes × PipelineState :=
  if state.metadata.last_update = none then
    let carts' := api_carts.foldl (fun m c => insertCart m c.id (entryOf c)) state.carts
    (⟨api_carts, [], [], [], true⟩, ⟨carts', state.metadata⟩)
  else
    let api_ids := api_carts.map Cart.id
    let deleted := (state.carts.filter (fun kv => !(api_ids.contains kv.1))).map
      (fun kv => (⟨kv.1, kv.2.userId, now, kv.2.products, 0⟩ : Cart))
    let kept := state.carts.filter (fun kv => api_ids.contains kv.1)
    let r := upsertLoop kept api_carts
    (⟨r.2.1, r.2.2.1, deleted, r.2.2.2, false⟩, ⟨r.1, state.metadata⟩)

-- ===========================================================================
-- Fetched records with a possibly missing identifier (claim C7)
-- ===========================================================================

/-- A raw fetched record whose "id" field may be missing. -/
structure RawCart where
  id : Option Nat
  userId : Nat
  date : String
  products : List Product
  v : Nat
  deriving DecidableEq

/-- Models the comprehension str(c["id"]) over the whole fetch (the statement
building api_ids): it stops at the first record missing "id", where Python
raises KeyError. -/
def extractIds : List RawCart → Option (List Cart)
  | [] => some []
  | r :: rs =>
    match r.id with
    | none => none
    | some i =>
      (extractIds rs).map (fun cs => (⟨i, r.userId, r.date, r.products, r.v⟩ : Cart) :: cs)

/-- `compare_and_detect_changes` on raw fetched records: its first statement,
api_ids = set(str(c["id"]) for c in api_carts), raises KeyError when any
record lacks "id". The function body contains no try/except, and neither does
its call site in polling_loop, so the exception propagates and aborts the
cycle; it is modeled as an Except.error result. -/
def compare_and_detect_changes_raw (now : String) (state : PipelineState)
    (api_carts : List RawCart) : Except String (Changes × PipelineState) :=
  match extractIds api_carts with
  | none => Except.error "KeyError: id"
  | some carts => Except.ok (compare_and_detect_changes now state carts)

-- ===========================================================================
-- Event generation
-- ===========================================================================

def EVENT_SCHEMA_VERSION : String := "1.0"

def SOURCE_NAME : String := "fake-store-api"

/-- Python s[:n] — the first n characters of a string. -/
def strTake (s : String) (n : Nat) : String := String.mk (s.data.take n)

/-- Source: `generate_event_id`. hash_input = f"\x7bcart_id\x7d_\x7bcart_date\x7d_\x7bproducts_sig\x7d"
and the event id is "cart_" + cart_id + "_" + the first 12 hex characters of
the content hash. hashlib.md5(...).hexdigest() is an external library call,
modeled as an explicit function parameter md5hex; the claims about event ids
hold for an arbitrary hash function. -/
def generate_event_id (md5hex : String → String) (cart : Cart) : String :=
  let cart_id := natStr cart.id
  let products_sig := calculate_products_signature cart.products
  let hash_input := cart_id ++ "_" ++ cart.date ++ "_" ++ products_sig
  let event_hash := strTake (md5hex hash_input) 12
  "cart_" ++ cart_id ++ "_" ++ event_hash

/-- JSON string literal for a date value (dates are plain ISO strings, so no
JSON escaping arises). -/
def jsonStr (s : String) : String := "\"" ++ s ++ "\""

/-- The payload json.dumps inside `create_event` (no sort_keys: dict insertion
order id, userId, date, products, __v). -/
def dumpsCartData (cart : Cart) : String :=
  "\x7b\"id\": " ++ natStr cart.id ++ ", \"userId\": " ++ natStr cart.userId ++
    ", \"date\": " ++ jsonStr cart.date ++ ", \"products\": " ++
    dumpsProducts cart.products ++ ", \"__v\": " ++ natStr cart.v ++ "\x7d"

/-- The immutable event envelope. -/
structure EventRec where
  event_id : String
  event_type : String
  event_schema_version : String
  source : String
  extracted_at : String
  published_at : String
  run_id : String
  data : String
  deriving DecidableEq

/-- Source: `create_event`. `now` is datetime.now().isoformat(), passed
explicitly; published_at is now + "Z". -/
def create_event (md5hex : String → String) (now : String) (cart : Cart)
    (event_type extracted_at run_id : String) : EventRec :=
  ⟨generate_event_id md5hex cart, event_type, EVENT_SCHEMA_VERSION, SOURCE_NAME,
    extracted_at, now ++ "Z", run_id, dumpsCartData cart⟩

-- ===========================================================================
-- Publishing with bounded retry and dead letter
-- ===========================================================================

def MAX_PUBLISH_RETRIES : Nat := 3

/-- Source: `publish_event_to_pubsub`, with the broker publish call modeled by
attemptOk rc (whether the attempt at retry counter rc succeeds — every raised
exception is caught by the except clause and counts as a failed attempt) and
the bounded self-recursion made structural on the remaining retry budget.
Returns the success flag together with the number of attempts made. -/
def publishGo (attemptOk : Nat → Bool) : Nat → Nat → Bool × Nat
  | 0, _ => (false, 0)
  | fuel + 1, retry_count =>
    if attemptOk retry_count then (true, 1)
    else if retry_count + 1 ≤ MAX_PUBLISH_RETRIES then
      let r := publishGo attemptOk fuel (retry_count + 1)
      (r.1, r.2 + 1)
    else (false, 1)

/-- Entry point with the retry budget MAX_PUBLISH_RETRIES + 1 - retry_count,
which bounds the recursion depth of the source's self-call. -/
def publish_event_to_pubsub (attemptOk : Nat → Bool) (retry_count : Nat) : Bool × Nat :=
  publishGo attemptOk (MAX_PUBLISH_RETRIES + 1 - retry_count) retry_count

/-- The batch result dict of `publish_events`. -/
structure PubStats where
  success : Nat
  failed : Nat
  dead_letter : Nat
  deriving DecidableEq

/-- The per-event loop of `publish_events`, also accumulating the dead-letter
sink contents (save_to_dead_letter appends one record per failed event). -/
def publishLoop (attemptOk : EventRec → Nat → Bool) :
    List EventRec → PubStats × List EventRec
  | [] => (⟨0, 0, 0⟩, [])
  | e :: es =>
    let r := publishLoop attemptOk es
    if (publish_event_to_pubsub (attemptOk e) 0).1 then
      (⟨r.1.success + 1, r.1.failed, r.1.dead_letter⟩, r.2)
    else
      (⟨r.1.success, r.1.failed + 1, r.1.dead_letter + 1⟩, e :: r.2)

/-- Source: `publish_events`. A none publisher_config is local mode (all
events reported successful without contacting the broker). -/
def publish_events (publisher_config : Option (EventRec → Nat → Bool))
    (events : List EventRec) : PubStats × List EventRec :=
  if events.isEmpty then (⟨0, 0, 0⟩, [])
  else
    match publisher_config with
    | none => (⟨events.length, 0, 0⟩, [])
    | some attemptOk => publishLoop attemptOk events

-- ===========================================================================
-- Snapshot persistence (claim C8)
-- ===========================================================================

/-- The two files save_state touches: STATE_FILE and the .json.tmp file. -/
structure FS where
  state_file : Option String
  temp_file : Option String
  deriving DecidableEq

/-- json.dumps of an optional string (null for None). -/
def dumpsOptStr : Option String → String
  | none => "null"
  | some s => jsonStr s

/-- json.dumps of one stored snapshot entry. -/
def dumpsEntry (e : CartEntry) : String :=
  "\x7b\"date\": " ++ jsonStr e.date ++ ", \"userId\": " ++ natStr e.userId ++
    ", \"products\": " ++ dumpsProducts e.products ++ "\x7d"

/-- json.dumps of the carts mapping body (keys are str(id)). -/
def dumpsCartsMap : List (Nat × CartEntry) → String
  | [] => ""
  | [kv] => jsonStr (natStr kv.1) ++ ": " ++ dumpsEntry kv.2
  | kv :: rest => jsonStr (natStr kv.1) ++ ": " ++ dumpsEntry kv.2 ++ ", " ++ dumpsCartsMap rest

/-- json.dump of the whole snapshot state, as written by save_state. -/
def serializeState (st : PipelineState) : String :=
  "\x7b\"carts\": \x7b" ++ dumpsCartsMap st.carts ++ "\x7d, \"metadata\": \x7b\"created_at\": " ++
    jsonStr st.metadata.created_at ++ ", \"last_update\": " ++
    dumpsOptStr st.metadata.last_update ++ ", \"poll_count\": " ++
    natStr st.metadata.poll_count ++ ", \"run_id\": " ++
    dumpsOptStr st.metadata.run_id ++ "\x7d\x7d"

/-- The metadata bump at the top of `save_state` (last_update = now,
poll_count += 1). -/
def bump_metadata (now : String) (st : PipelineState) : PipelineState :=
  ⟨st.carts, ⟨st.metadata.created_at, some now, st.metadata.poll_count + 1,
    st.metadata.run_id⟩⟩

/-- Source: `save_state` — write the full serialization to a temporary file,
then rename it over the state file (temp_file.replace(STATE_FILE)). The trace
lists the file-system contents after every atomic step of the write: after
each partial write of the temp file (k = 0..n characters flushed), and after
the final rename. The state file itself is touched only by the rename, whose
atomicity is the operating-system contract. -/
def save_state_trace (now : String) (st : PipelineState) (fs : FS) : List FS :=
  let content := serializeState (bump_metadata now st)
  ((List.range (content.data.length + 1)).map
    (fun k => (⟨fs.state_file, some (String.mk (content.data.take k))⟩ : FS))) ++
  [⟨some content, none⟩]

/-- A file content is loadable when it is a complete serialized snapshot
(load_state's json.load succeeds on exactly the files json.dump wrote). -/
def LoadableContent (c : String) : Prop := ∃ st : PipelineState, c = serializeState st

-- ===========================================================================
-- Concrete inputs used by the witnesses and counterexamples
-- ===========================================================================

/-- Two line items sharing productId 1 with different quantities. -/
def pA : Product := ⟨1, 1⟩

/-- Second line item with productId 1. -/
def pB : Product := ⟨1, 2⟩

/-- Line item with productId 1, quantity 1. -/
def pC : Product := ⟨1, 1⟩

/-- Line item with productId 2, quantity 2. -/
def pD : Product := ⟨2, 2⟩

/-- A stand-in for hashlib.md5(...).hexdigest() in witnesses. -/
def md5W : String → String := fun _ => "0123456789abcdef"

/-- Witness cart, products listed in one order. -/
def cartW1 : Cart := ⟨1, 7, "d", [pC, pD], 0⟩

/-- Witness cart, identical content with products permuted. -/
def cartW2 : Cart := ⟨1, 7, "d", [pD, pC], 0⟩

/-- Witness cold-start state: empty carts, no prior poll. -/
def stC3 : PipelineState := ⟨[], ⟨"c", none, 0, none⟩⟩

/-- Witness warm state tracking ids 1 and 3. -/
def stC4 : PipelineState :=
  ⟨[(1, ⟨"d1", 7, [pC]⟩), (3, ⟨"d3", 9, [pD]⟩)], ⟨"c", some "u", 1, none⟩⟩

/-- Warm fetch leaving cart 1 unchanged (and cart 3 absent). -/
def apiC4 : List Cart := [⟨1, 7, "d1", [pC], 0⟩]

/-- Warm state tracking only id 1, with userId 7. -/
def stC5 : PipelineState := ⟨[(1, ⟨"d1", 7, []⟩)], ⟨"c", some "u", 1, none⟩⟩

/-- Fetched cart 1 with a new date and a new userId 8. -/
def cartC5 : Cart := ⟨1, 8, "d2", [], 0⟩

/-- Witness event record. -/
def evW : EventRec := ⟨"i", "t", "1.0", "s", "x", "p", "r", "d"⟩

/-- Witness broker that fails every publish attempt. -/
def atkW : EventRec → Nat → Bool := fun _ _ => false

/-- Witness raw record carrying its id. -/
def rawGood : RawCart := ⟨some 1, 7, "d1", [], 0⟩

/-- Witness raw record missing its id. -/
def rawBad : RawCart := ⟨none, 8, "d2", [], 0⟩

/-- Witness snapshot state for persistence. -/
def stW : PipelineState := ⟨[(1, ⟨"d1", 7, [pC]⟩)], ⟨"c", some "u", 1, none⟩⟩

/-- Witness file system holding the serialized prior snapshot. -/
def fsW : FS := ⟨some (serializeState stW), none⟩

-- ===========================================================================
-- Decimal printing: correctness and injectivity
-- ===========================================================================

/-- The fuel argument of `digitsRec` is irrelevant once it bounds the input. -/
theorem digitsRec_fuel :
    ∀ (n f1 f2 : Nat), n ≤ f1 → n ≤ f2 → digitsRec f1 n = digitsRec f2 n := by
  intro n
  induction n using Nat.strong_induction_on with
  | _ n ih =>
    intro f1 f2 h1 h2
    cases n with
    | zero => cases f1 <;> cases f2 <;> rfl
    | succ m =>
      cases f1 with
      | zero => exact absurd h1 (by omega)
      | succ g1 =>
        cases f2 with
        | zero => exact absurd h2 (by omega)
        | succ g2 =>
          have hlt : (m + 1) / 10 < m + 1 := Nat.div_lt_self (Nat.succ_pos m) (by norm_num)
          simp only [digitsRec]
          exact congrArg (List.cons ((m + 1) % 10))
            (ih ((m + 1) / 10) hlt g1 g2 (by omega) (by omega))

/-- Unfolding equation for `natDigits` on a positive input. -/
theorem natDigits_succ (m : Nat) :
    natDigits (m + 1) = ((m + 1) % 10) :: natDigits ((m + 1) / 10) := by
  have hlt : (m + 1) / 10 < m + 1 := Nat.div_lt_self (Nat.succ_pos m) (by norm_num)
  show digitsRec (m + 1) (m + 1) = ((m + 1) % 10) :: digitsRec ((m + 1) / 10) ((m + 1) / 10)
  simp only [digitsRec]
  exact congrArg (List.cons ((m + 1) % 10))
    (digitsRec_fuel ((m + 1) / 10) m ((m + 1) / 10) (by omega) (le_refl _))

/-- `fromDigits` inverts `natDigits`. -/
theorem fromDigits_natDigits : ∀ n, fromDigits (natDigits n) = n := by
  intro n
  induction n using Nat.strong_induction_on with
  | _ n ih =>
    cases n with
    | zero => rfl
    | succ m =>
      have hlt : (m + 1) / 10 < m + 1 := Nat.div_lt_self (Nat.succ_pos m) (by norm_num)
      rw [natDigits_succ]
      show (m + 1) % 10 + 10 * fromDigits (natDigits ((m + 1) / 10)) = m + 1
      rw [ih _ hlt]
      omega

/-- `natDigits` is injective. -/
theorem natDigits_inj {n m : Nat} (h : natDigits n = natDigits m) : n = m := by
  have h1 := fromDigits_natDigits n
  rw [h, fromDigits_natDigits m] at h1
  omega

/-- Every decimal digit produced by `natDigits` is below 10. -/
theorem natDigits_lt : ∀ n d, d ∈ natDigits n → d < 10 := by
  intro n
  induction n using Nat.strong_induction_on with
  | _ n ih =>
    intro d hd
    cases n with
    | zero => simp [natDigits, digitsRec] at hd
    | succ m =>
      rw [natDigits_succ] at hd
      rcases List.mem_cons.mp hd with h | h
      · omega
      · exact ih ((m + 1) / 10) (Nat.div_lt_self (Nat.succ_pos m) (by norm_num)) d h

/-- `Nat.digitChar` is injective on decimal digits (finite check). -/
theorem digitChar_inj_aux :
    ∀ d1 d2 : Fin 10, Nat.digitChar d1.val = Nat.digitChar d2.val → d1 = d2 := by decide

/-- `Nat.digitChar` yields a character that `Char.isDigit` accepts. -/
theorem digitChar_isDigit_aux : ∀ d : Fin 10, (Nat.digitChar d.val).isDigit = true := by decide

/-- Injectivity of `Nat.digitChar`, lifted to Nat arguments below 10. -/
theorem digitChar_inj {d1 d2 : Nat} (h1 : d1 < 10) (h2 : d2 < 10)
    (h : Nat.digitChar d1 = Nat.digitChar d2) : d1 = d2 := by
  have := digitChar_inj_aux ⟨d1, h1⟩ ⟨d2, h2⟩ h
  exact congrArg Fin.val this

/-- Mapping `Nat.digitChar` over digit lists is injective. -/
theorem map_digitChar_inj :
    ∀ l1 l2 : List Nat, (∀ d ∈ l1, d < 10) → (∀ d ∈ l2, d < 10) →
      l1.map Nat.digitChar = l2.map Nat.digitChar → l1 = l2 := by
  intro l1
  induction l1 with
  | nil =>
    intro l2 _ _ h
    cases l2 with
    | nil => rfl
    | cons d t => simp at h
  | cons d t iht =>
    intro l2 hb1 hb2 h
    cases l2 with
    | nil => simp at h
    | cons d' t' =>
      simp only [List.map_cons, List.cons.injEq] at h
      have hd : d = d' :=
        digitChar_inj (hb1 d (by simp)) (hb2 d' (by simp)) h.1
      have ht : t = t' :=
        iht t' (fun x hx => hb1 x (by simp [hx])) (fun x hx => hb2 x (by simp [hx])) h.2
      rw [hd, ht]

/-- A digit-char list representing zero forces the number to be zero. -/
theorem digits_map_eq_single_zero {m : Nat}
    (h : (natDigits m).map Nat.digitChar = ['0']) : m = 0 := by
  cases hd : natDigits m with
  | nil => rw [hd] at h; simp at h
  | cons d t =>
    rw [hd] at h
    simp only [List.map_cons, List.cons.injEq, List.map_eq_nil_iff] at h
    have hdl : d < 10 := natDigits_lt m d (by rw [hd]; simp)
    have hd0 : d = 0 := digitChar_inj hdl (by norm_num) h.1
    have := fromDigits_natDigits m
    rw [hd, h.2, hd0] at this
    simpa [fromDigits] using this.symm

/-- `natChars` is injective. -/
theorem natChars_inj : ∀ {n m : Nat}, natChars n = natChars m → n = m := by
  intro n m h
  unfold natChars at h
  by_cases hn : n = 0 <;> by_cases hm : m = 0
  · omega
  · rw [if_pos hn, if_neg hm] at h
    have h2 : (natDigits m).map Nat.digitChar = ['0'] := by
      have := congrArg List.reverse h
      simpa using this.symm
    exact absurd (digits_map_eq_single_zero h2) hm
  · rw [if_neg hn, if_pos hm] at h
    have h2 : (natDigits n).map Nat.digitChar = ['0'] := by
      have := congrArg List.reverse h
      simpa using this
    exact absurd (digits_map_eq_single_zero h2) hn
  · rw [if_neg hn, if_neg hm] at h
    have h2 := List.reverse_injective h
    exact natDigits_inj (map_digitChar_inj _ _ (natDigits_lt n) (natDigits_lt m) h2)

/-- `natStr` is injective. -/
theorem natStr_inj {n m : Nat} (h : natStr n = natStr m) : n = m :=
  natChars_inj (congrArg String.data h)

/-- Every character of `natChars` is a decimal digit character. -/
theorem natChars_isDigit {n : Nat} {c : Char} (hc : c ∈ natChars n) : c.isDigit = true := by
  unfold natChars at hc
  by_cases hn : n = 0
  · rw [if_pos hn] at hc
    simp at hc
    rw [hc]
    decide
  · rw [if_neg hn] at hc
    rw [List.mem_reverse] at hc
    obtain ⟨d, hd, hdc⟩ := List.mem_map.mp hc
    rw [← hdc]
    exact digitChar_isDigit_aux ⟨d, natDigits_lt n d hd⟩

-- ===========================================================================
-- JSON serializer: injectivity
-- ===========================================================================

/-- Unique tokenization: a run of digit characters followed by a non-digit
delimiter determines the split of a character list. -/
theorem digits_delim_cancel :
    ∀ (xs1 xs2 : List Char) {c c' : Char} {r1 r2 : List Char},
      xs1 ++ c :: r1 = xs2 ++ c' :: r2 →
      (∀ ch ∈ xs1, ch.isDigit = true) → (∀ ch ∈ xs2, ch.isDigit = true) →
      c.isDigit = false → c'.isDigit = false →
      xs1 = xs2 ∧ c = c' ∧ r1 = r2 := by
  intro xs1
  induction xs1 with
  | nil =>
    intro xs2 c c' r1 r2 h hd1 hd2 hc hc'
    cases xs2 with
    | nil =>
      simp only [List.nil_append, List.cons.injEq] at h
      exact ⟨rfl, h.1, h.2⟩
    | cons y ys =>
      exfalso
      simp only [List.nil_append, List.cons_append, List.cons.injEq] at h
      have hy := hd2 y (by simp)
      rw [← h.1, hc] at hy
      exact Bool.noConfusion hy
  | cons x xs ih =>
    intro xs2 c c' r1 r2 h hd1 hd2 hc hc'
    cases xs2 with
    | nil =>
      exfalso
      simp only [List.cons_append, List.nil_append, List.cons.injEq] at h
      have hx := hd1 x (by simp)
      rw [h.1, hc'] at hx
      exact Bool.noConfusion hx
    | cons y ys =>
      simp only [List.cons_append, List.cons.injEq] at h
      obtain ⟨hxy, htail⟩ := h
      obtain ⟨he, hcc, hrr⟩ := ih ys htail (fun ch hch => hd1 ch (by simp [hch]))
        (fun ch hch => hd2 ch (by simp [hch])) hc hc'
      exact ⟨by rw [hxy, he], hcc, hrr⟩

/-- Serialized products are uniquely decodable from the front of a character
list: the leading product object and the remainder are determined. -/
theorem prodChars_cancel :
    ∀ {p1 p2 : Product} {r1 r2 : List Char},
      prodChars p1 ++ r1 = prodChars p2 ++ r2 → p1 = p2 ∧ r1 = r2 := by
  intro p1 p2 r1 r2 h
  obtain ⟨a1, b1⟩ := p1
  obtain ⟨a2, b2⟩ := p2
  simp only [prodChars] at h
  simp [List.append_assoc] at h
  obtain ⟨ha, -, h2⟩ := digits_delim_cancel _ _ h
    (fun ch hch => natChars_isDigit hch) (fun ch hch => natChars_isDigit hch)
    (by decide) (by decide)
  simp at h2
  obtain ⟨hb, -, h4⟩ := digits_delim_cancel _ _ h2
    (fun ch hch => natChars_isDigit hch) (fun ch hch => natChars_isDigit hch)
    (by decide) (by decide)
  refine ⟨?_, h4⟩
  have ha' : a1 = a2 := natStr_inj (congrArg String.mk ha)
  have hb' : b1 = b2 := natStr_inj (congrArg String.mk hb)
  rw [ha', hb']

/-- The serialization of a product starts with an opening brace. -/
theorem prodChars_head_brace (p : Product) : ∃ t, prodChars p = '\x7b' :: t := by
  unfold prodChars
  rw [show ("\x7b\"productId\": " : String).data =
      '\x7b' :: ("\"productId\": " : String).data from rfl]
  simp only [List.cons_append]
  exact ⟨_, rfl⟩

/-- The tail serialization of a product list is injective. -/
theorem listTail_inj : ∀ ps1 ps2 : List Product, listTail ps1 = listTail ps2 → ps1 = ps2 := by
  intro ps1
  induction ps1 with
  | nil =>
    intro ps2 h
    cases ps2 with
    | nil => rfl
    | cons q qs =>
      exfalso
      simp only [listTail] at h
      injection h with h1 _
      exact absurd h1 (by decide)
  | cons p ps ih =>
    intro ps2 h
    cases ps2 with
    | nil =>
      exfalso
      simp only [listTail] at h
      injection h with h1 _
      exact absurd h1 (by decide)
    | cons q qs =>
      simp [listTail] at h
      obtain ⟨hpq, hrest⟩ := prodChars_cancel h
      rw [hpq, ih qs hrest]

/-- The body serialization of a product list is injective. -/
theorem listBody_inj : ∀ ps1 ps2 : List Product, listBody ps1 = listBody ps2 → ps1 = ps2 := by
  intro ps1 ps2 h
  cases ps1 with
  | nil =>
    cases ps2 with
    | nil => rfl
    | cons q qs =>
      exfalso
      obtain ⟨t, ht⟩ := prodChars_head_brace q
      simp only [listBody] at h
      rw [ht] at h
      simp only [List.cons_append] at h
      injection h with h1 _
      exact absurd h1 (by decide)
  | cons p ps =>
    cases ps2 with
    | nil =>
      exfalso
      obtain ⟨t, ht⟩ := prodChars_head_brace p
      simp only [listBody] at h
      rw [ht] at h
      simp only [List.cons_append] at h
      injection h with h1 _
      exact absurd h1 (by decide)
    | cons q qs =>
      simp only [listBody] at h
      obtain ⟨hpq, hrest⟩ := prodChars_cancel h
      rw [hpq, listTail_inj ps qs hrest]

/-- `dumpsProducts` is injective: byte-identical serializations come from
identical (ordered) product lists. -/
theorem dumpsProducts_inj {ps1 ps2 : List Product}
    (h : dumpsProducts ps1 = dumpsProducts ps2) : ps1 = ps2 := by
  have h2 : '[' :: listBody ps1 = '[' :: listBody ps2 := congrArg String.data h
  injection h2 with _ h3
  exact listBody_inj ps1 ps2 h3

/-- Signature equality forces the stable-sorted product lists to coincide. -/
theorem sig_eq_sorted_eq {l1 l2 : List Product}
    (h : calculate_products_signature l1 = calculate_products_signature l2) :
    List.insertionSort prodLe l1 = List.insertionSort prodLe l2 := by
  unfold calculate_products_signature at h
  exact dumpsProducts_inj h

-- ===========================================================================
-- Claim C2: order independence of the canonical signature
-- ===========================================================================

/-- With pairwise-distinct productIds the stable sort is strictly sorted. -/
theorem sorted_strict {l : List Product} (hnd : (l.map Product.productId).Nodup) :
    List.Pairwise prodLt (List.insertionSort prodLe l) := by
  have hs : List.Sorted prodLe (List.insertionSort prodLe l) :=
    List.sorted_insertionSort prodLe l
  have hp : (List.insertionSort prodLe l).Perm l := List.perm_insertionSort prodLe l
  have hnd2 : ((List.insertionSort prodLe l).map Product.productId).Nodup :=
    ((hp.map Product.productId).nodup_iff).mpr hnd
  have hne : List.Pairwise (fun a b : Product => a.productId ≠ b.productId)
      (List.insertionSort prodLe l) := List.pairwise_map.mp hnd2
  exact (hs.and hne).imp (fun hab => Nat.lt_of_le_of_ne hab.1 hab.2)

/-- C2, counterexample: two product lists that are permutations of each other
(the same items with the same attributes, as multisets) but contain two items
sharing productId 1 receive different signature strings — Python's stable
sort keeps the relative order of equal-keyed duplicates, so the claimed
"if and only if" fails for lists with repeated productIds. -/
theorem C2_counterexample :
    calculate_products_signature [pA, pB] ≠ calculate_products_signature [pB, pA] ∧
    List.Perm [pA, pB] [pB, pA] :=
  ⟨by decide, List.Perm.swap pB pA []⟩

/-- C2 (amended): for every two lists of product line items in which no
productId repeats within a list, `calculate_products_signature` produces
byte-identical signature strings iff the two lists contain the same items
with the same attributes independent of ordering (equality as multisets,
i.e. the lists are permutations of each other). Lists with repeated
productIds are excluded — `C2_counterexample` shows the equivalence breaks
for them. -/
theorem C2_signature_multiset_iff (l1 l2 : List Product)
    (h1 : (l1.map Product.productId).Nodup) (h2 : (l2.map Product.productId).Nodup) :
    calculate_products_signature l1 = calculate_products_signature l2 ↔ List.Perm l1 l2 := by
  constructor
  · intro h
    have hs := sig_eq_sorted_eq h
    have p1 := List.perm_insertionSort prodLe l1
    have p2 := List.perm_insertionSort prodLe l2
    rw [← hs] at p2
    exact p1.symm.trans p2
  · intro hp
    have hperm : (List.insertionSort prodLe l1).Perm (List.insertionSort prodLe l2) :=
      (List.perm_insertionSort prodLe l1).trans
        (hp.trans (List.perm_insertionSort prodLe l2).symm)
    have s1 : List.Sorted prodLt (List.insertionSort prodLe l1) := sorted_strict h1
    have s2 : List.Sorted prodLt (List.insertionSort prodLe l2) := sorted_strict h2
    have heq := List.eq_of_perm_of_sorted hperm s1 s2
    unfold calculate_products_signature
    rw [heq]

/-- C2 witness at concrete inputs with distinct productIds. -/
theorem C2_witness :
    (calculate_products_signature [pC, pD] = calculate_products_signature [pD, pC] ↔
      List.Perm [pC, pD] [pD, pC]) :=
  C2_signature_multiset_iff [pC, pD] [pD, pC] (by decide) (by decide)

-- ===========================================================================
-- Snapshot mapping lemmas
-- ===========================================================================

/-- Looking up the just-assigned key returns the assigned value. -/
theorem findEntry_insert_self :
    ∀ (m : List (Nat × CartEntry)) (k : Nat) (v : CartEntry),
      findEntry (insertCart m k v) k = some v := by
  intro m k v
  induction m with
  | nil => simp [insertCart, findEntry]
  | cons kv rest ih =>
    obtain ⟨k', v'⟩ := kv
    by_cases h : k' = k
    · simp [insertCart, findEntry, h]
    · simp [insertCart, findEntry, h, ih]

/-- Assigning one key leaves the other keys' lookups unchanged. -/
theorem findEntry_insert_other (k j : Nat) (v : CartEntry) (hjk : j ≠ k) :
    ∀ m, findEntry (insertCart m k v) j = findEntry m j := by
  intro m
  induction m with
  | nil => simp [insertCart, findEntry, Ne.symm hjk]
  | cons kv rest ih =>
    obtain ⟨k', v'⟩ := kv
    by_cases h : k' = k
    · subst h
      simp [insertCart, findEntry, Ne.symm hjk]
    · simp only [insertCart, if_neg h]
      by_cases h2 : k' = j
      · simp [findEntry, h2]
      · simp [findEntry, h2, ih]

/-- A successful lookup exhibits the pair in the mapping. -/
theorem findEntry_mem :
    ∀ (m : List (Nat × CartEntry)) (k : Nat) (e : CartEntry),
      findEntry m k = some e → (k, e) ∈ m := by
  intro m k e
  induction m with
  | nil => intro h; simp [findEntry] at h
  | cons kv rest ih =>
    obtain ⟨k', v'⟩ := kv
    intro h
    by_cases hk : k' = k
    · subst hk
      simp [findEntry] at h
      simp [h]
    · simp [findEntry, hk] at h
      exact List.mem_cons_of_mem _ (ih h)

/-- A successful lookup puts the key among the mapping's keys. -/
theorem findEntry_some_mem_keys {m : List (Nat × CartEntry)} {k : Nat} {e : CartEntry}
    (h : findEntry m k = some e) : k ∈ m.map Prod.fst :=
  List.mem_map.mpr ⟨(k, e), findEntry_mem m k e h, rfl⟩

/-- Key membership after an assignment. -/
theorem keys_insert (m : List (Nat × CartEntry)) (k : Nat) (v : CartEntry) (j : Nat) :
    j ∈ (insertCart m k v).map Prod.fst ↔ j ∈ m.map Prod.fst ∨ j = k := by
  induction m with
  | nil => simp [insertCart]
  | cons kv rest ih =>
    obtain ⟨k', v'⟩ := kv
    by_cases h : k' = k
    · subst h
      simp [insertCart]
      tauto
    · simp only [insertCart, if_neg h, List.map_cons, List.mem_cons, ih]
      tauto

/-- Keys absent from the retained filter have no entry there. -/
theorem findEntry_filter_not_mem (ids : List Nat) (k : Nat) (hk : k ∉ ids) :
    ∀ m : List (Nat × CartEntry),
      findEntry (m.filter (fun kv => ids.contains kv.1)) k = none := by
  intro m
  induction m with
  | nil => rfl
  | cons kv rest ih =>
    obtain ⟨k', v'⟩ := kv
    rw [List.filter_cons]
    by_cases h : ids.contains k' = true
    · rw [if_pos h]
      have hk' : k' ∈ ids := List.elem_iff.mp h
      have hne : k' ≠ k := fun he => hk (he ▸ hk')
      simp only [findEntry, if_neg hne]
      exact ih
    · rw [if_neg h]
      exact ih

/-- Keys retained by the filter keep their first entry. -/
theorem findEntry_filter_mem (ids : List Nat) (k : Nat) (hk : k ∈ ids) :
    ∀ m : List (Nat × CartEntry),
      findEntry (m.filter (fun kv => ids.contains kv.1)) k = findEntry m k := by
  intro m
  induction m with
  | nil => rfl
  | cons kv rest ih =>
    obtain ⟨k', v'⟩ := kv
    rw [List.filter_cons]
    by_cases h : ids.contains k' = true
    · rw [if_pos h]
      by_cases hk2 : k' = k
      · simp only [findEntry, if_pos hk2]
      · simp only [findEntry, if_neg hk2]
        exact ih
    · rw [if_neg h]
      have hk' : k' ∉ ids := fun hmem => h (List.elem_iff.mpr hmem)
      have hne : k' ≠ k := fun he => hk' (he ▸ hk)
      simp only [findEntry, if_neg hne]
      exact ih

/-- Keys of the retained filter all occur in the fetched id list. -/
theorem keys_filter_subset (ids : List Nat) (m : List (Nat × CartEntry)) (k : Nat)
    (h : k ∈ (m.filter (fun kv => ids.contains kv.1)).map Prod.fst) : k ∈ ids := by
  obtain ⟨kv, hmem, hfst⟩ := List.mem_map.mp h
  have h2 := (List.mem_filter.mp hmem).2
  rw [hfst] at h2
  exact List.elem_iff.mp h2

/-- Assigning a fresh key appends the pair (dict insertion order). -/
theorem insertCart_fresh :
    ∀ (m : List (Nat × CartEntry)) (k : Nat) (v : CartEntry), k ∉ m.map Prod.fst →
      insertCart m k v = m ++ [(k, v)] := by
  intro m k v
  induction m with
  | nil => intro _; rfl
  | cons kv rest ih =>
    obtain ⟨k', v'⟩ := kv
    intro h
    simp only [List.map_cons, List.mem_cons, not_or] at h
    simp [insertCart, Ne.symm h.1]
    exact ih h.2

/-- Inserting pairwise-fresh keys from the fetch appends them in order. -/
theorem foldl_insert_fresh :
    ∀ (cs : List Cart) (m : List (Nat × CartEntry)),
      (∀ c ∈ cs, c.id ∉ m.map Prod.fst) → (cs.map Cart.id).Nodup →
      cs.foldl (fun m c => insertCart m c.id (entryOf c)) m =
        m ++ cs.map (fun c => (c.id, entryOf c)) := by
  intro cs
  induction cs with
  | nil => intro m _ _; simp
  | cons c cs ih =>
    intro m hfresh hnd
    simp only [List.foldl_cons]
    rw [insertCart_fresh m c.id (entryOf c) (hfresh c (by simp))]
    rw [ih (m ++ [(c.id, entryOf c)]) ?fresh ?nd]
    · simp
    case fresh =>
      intro c' hc' hmem
      rw [List.map_append, List.mem_append] at hmem
      rcases hmem with h | h
      · exact hfresh c' (List.mem_cons_of_mem c hc') h
      · simp at h
        have hni := (List.nodup_cons.mp hnd).1
        exact hni (h ▸ List.mem_map_of_mem Cart.id hc')
    case nd => exact (List.nodup_cons.mp hnd).2

/-- Lookup in the mapping built from a duplicate-free fetch. -/
theorem findEntry_pairs :
    ∀ (cs : List Cart), ∀ c ∈ cs, (cs.map Cart.id).Nodup →
      findEntry (cs.map (fun c => (c.id, entryOf c))) c.id = some (entryOf c) := by
  intro cs
  induction cs with
  | nil => intro c hc _; simp at hc
  | cons d ds ih =>
    intro c hc hnd
    rcases List.mem_cons.mp hc with rfl | hc'
    · simp [findEntry]
    · by_cases hid : d.id = c.id
      · exfalso
        have hni := (List.nodup_cons.mp hnd).1
        exact hni (hid.symm ▸ List.mem_map_of_mem Cart.id hc')
      · simp only [List.map_cons, findEntry, if_neg hid]
        exact ih c hc' (List.nodup_cons.mp hnd).2

-- ===========================================================================
-- Claim C3: cold start completeness
-- ===========================================================================

/-- C3: on a cold start (no prior poll recorded; the snapshot's carts mapping
is empty, which is the documented lifecycle of a never-polled snapshot), a
fetch of records with unique ids is classified entirely as created — none
modified, deleted or unchanged — and afterwards the snapshot maps exactly the
fetched ids, each to the fetched date, userId and products. -/
theorem C3_cold_start_complete (now : String) (state : PipelineState) (api_carts : List Cart)
    (hcold : state.metadata.last_update = none) (hempty : state.carts = [])
    (hnd : (api_carts.map Cart.id).Nodup) :
    (compare_and_detect_changes now state api_carts).1.new = api_carts ∧
    (compare_and_detect_changes now state api_carts).1.modified = [] ∧
    (compare_and_detect_changes now state api_carts).1.deleted = [] ∧
    (compare_and_detect_changes now state api_carts).1.unchanged = [] ∧
    (compare_and_detect_changes now state api_carts).2.carts.map Prod.fst =
      api_carts.map Cart.id ∧
    ∀ c ∈ api_carts,
      findEntry (compare_and_detect_changes now state api_carts).2.carts c.id =
        some ⟨c.date, c.userId, c.products⟩ := by
  have hfold : (compare_and_detect_changes now state api_carts).2.carts =
      api_carts.map (fun c => (c.id, entryOf c)) := by
    simp [compare_and_detect_changes, hcold, hempty]
    rw [foldl_insert_fresh api_carts [] (by simp) hnd]
    simp
  refine ⟨?_, ?_, ?_, ?_, ?_, ?_⟩
  · simp [compare_and_detect_changes, hcold]
  · simp [compare_and_detect_changes, hcold]
  · simp [compare_and_detect_changes, hcold]
  · simp [compare_and_detect_changes, hcold]
  · rw [hfold]
    simp [List.map_map, Function.comp]
  · intro c hc
    rw [hfold]
    exact findEntry_pairs api_carts c hc hnd

/-- C3 witness: one-record fetch against the empty cold snapshot. -/
theorem C3_witness :
    (compare_and_detect_changes "T" stC3 [cartW1]).1.new = [cartW1] ∧
    (compare_and_detect_changes "T" stC3 [cartW1]).1.modified = [] ∧
    (compare_and_detect_changes "T" stC3 [cartW1]).1.deleted = [] ∧
    (compare_and_detect_changes "T" stC3 [cartW1]).1.unchanged = [] ∧
    (compare_and_detect_changes "T" stC3 [cartW1]).2.carts.map Prod.fst =
      [cartW1].map Cart.id ∧
    findEntry (compare_and_detect_changes "T" stC3 [cartW1]).2.carts cartW1.id =
      some ⟨cartW1.date, cartW1.userId, cartW1.products⟩ := by
  have h := C3_cold_start_complete "T" stC3 [cartW1] rfl rfl (by decide)
  exact ⟨h.1, h.2.1, h.2.2.1, h.2.2.2.1, h.2.2.2.2.1,
    h.2.2.2.2.2 cartW1 (by simp)⟩

-- ===========================================================================
-- Upsert loop: step equations and threading lemmas
-- ===========================================================================

/-- Step equation: fetched id absent from the mapping (created). -/
theorem upsertLoop_cons_none {m : List (Nat × CartEntry)} {c : Cart} {cs : List Cart}
    (h : findEntry m c.id = none) :
    upsertLoop m (c :: cs) =
      ((upsertLoop (insertCart m c.id (entryOf c)) cs).1,
       c :: (upsertLoop (insertCart m c.id (entryOf c)) cs).2.1,
       (upsertLoop (insertCart m c.id (entryOf c)) cs).2.2.1,
       (upsertLoop (insertCart m c.id (entryOf c)) cs).2.2.2) := by
  simp only [upsertLoop, h]

/-- Step equation: stored entry found and content changed (modified) — only
date and products are overwritten, the stored userId is retained. -/
theorem upsertLoop_cons_mod {m : List (Nat × CartEntry)} {c : Cart} {cs : List Cart}
    {old : CartEntry} (h : findEntry m c.id = some old)
    (hch : (old.date != c.date || products_have_changed old.products c.products) = true) :
    upsertLoop m (c :: cs) =
      ((upsertLoop (insertCart m c.id ⟨c.date, old.userId, c.products⟩) cs).1,
       (upsertLoop (insertCart m c.id ⟨c.date, old.userId, c.products⟩) cs).2.1,
       c :: (upsertLoop (insertCart m c.id ⟨c.date, old.userId, c.products⟩) cs).2.2.1,
       (upsertLoop (insertCart m c.id ⟨c.date, old.userId, c.products⟩) cs).2.2.2) := by
  simp only [upsertLoop, h, hch, if_true]

/-- Step equation: stored entry found with identical content (unchanged) —
the mapping is left untouched. -/
theorem upsertLoop_cons_unch {m : List (Nat × CartEntry)} {c : Cart} {cs : List Cart}
    {old : CartEntry} (h : findEntry m c.id = some old)
    (hch : (old.date != c.date || products_have_changed old.products c.products) = false) :
    upsertLoop m (c :: cs) =
      ((upsertLoop m cs).1, (upsertLoop m cs).2.1, (upsertLoop m cs).2.2.1,
       c :: (upsertLoop m cs).2.2.2) := by
  simp only [upsertLoop, h, hch, Bool.false_eq_true, if_false]

/-- The upsert loop does not change lookups of keys outside the fetch. -/
theorem upsertLoop_findEntry_not_mem :
    ∀ (cs : List Cart) (m : List (Nat × CartEntry)) (k : Nat), k ∉ cs.map Cart.id →
      findEntry (upsertLoop m cs).1 k = findEntry m k := by
  intro cs
  induction cs with
  | nil => intro m k _; rfl
  | cons c cs ih =>
    intro m k hk
    simp only [List.map_cons, List.mem_cons, not_or] at hk
    cases hfe : findEntry m c.id with
    | none =>
      rw [upsertLoop_cons_none hfe]
      show findEntry (upsertLoop (insertCart m c.id (entryOf c)) cs).1 k = findEntry m k
      rw [ih (insertCart m c.id (entryOf c)) k hk.2,
        findEntry_insert_other c.id k (entryOf c) hk.1 m]
    | some old =>
      by_cases hch : (old.date != c.date || products_have_changed old.products c.products) = true
      · rw [upsertLoop_cons_mod hfe hch]
        show findEntry (upsertLoop (insertCart m c.id ⟨c.date, old.userId, c.products⟩) cs).1 k =
          findEntry m k
        rw [ih (insertCart m c.id ⟨c.date, old.userId, c.products⟩) k hk.2,
          findEntry_insert_other c.id k ⟨c.date, old.userId, c.products⟩ hk.1 m]
      · rw [upsertLoop_cons_unch hfe (Bool.not_eq_true _ ▸ hch)]
        exact ih m k hk.2

/-- Key membership after the upsert loop: the starting keys plus the fetched
ids. -/
theorem upsertLoop_keys :
    ∀ (cs : List Cart) (m : List (Nat × CartEntry)) (k : Nat),
      (k ∈ (upsertLoop m cs).1.map Prod.fst ↔ k ∈ m.map Prod.fst ∨ k ∈ cs.map Cart.id) := by
  intro cs
  induction cs with
  | nil =>
    intro m k
    show k ∈ m.map Prod.fst ↔ k ∈ m.map Prod.fst ∨ k ∈ ([] : List Cart).map Cart.id
    simp
  | cons c cs ih =>
    intro m k
    rw [List.map_cons, List.mem_cons]
    cases hfe : findEntry m c.id with
    | none =>
      rw [upsertLoop_cons_none hfe]
      show k ∈ (upsertLoop (insertCart m c.id (entryOf c)) cs).1.map Prod.fst ↔ _
      rw [ih, keys_insert]
      tauto
    | some old =>
      by_cases hch : (old.date != c.date || products_have_changed old.products c.products) = true
      · rw [upsertLoop_cons_mod hfe hch]
        show k ∈ (upsertLoop (insertCart m c.id ⟨c.date, old.userId, c.products⟩) cs).1.map
          Prod.fst ↔ _
        rw [ih, keys_insert]
        tauto
      · rw [upsertLoop_cons_unch hfe (Bool.not_eq_true _ ▸ hch)]
        show k ∈ (upsertLoop m cs).1.map Prod.fst ↔ _
        rw [ih]
        have hin : c.id ∈ m.map Prod.fst := findEntry_some_mem_keys hfe
        constructor
        · rintro (h | h)
          · exact Or.inl h
          · exact Or.inr (Or.inr h)
        · rintro (h | h | h)
          · exact Or.inl h
          · exact Or.inl (h.symm ▸ hin)
          · exact Or.inr h

/-- Threading the upsert loop over a record whose id is already stored: the
change flag decides between the modified and unchanged classifications, and
determines the final stored entry. -/
theorem upsertLoop_existing :
    ∀ (cs : List Cart) (m : List (Nat × CartEntry)) (c : Cart) (e : CartEntry),
      c ∈ cs → (cs.map Cart.id).Nodup → findEntry m c.id = some e →
      ((e.date != c.date || products_have_changed e.products c.products) = true →
        c ∈ (upsertLoop m cs).2.2.1 ∧
        findEntry (upsertLoop m cs).1 c.id = some ⟨c.date, e.userId, c.products⟩) ∧
      ((e.date != c.date || products_have_changed e.products c.products) = false →
        c ∈ (upsertLoop m cs).2.2.2 ∧ findEntry (upsertLoop m cs).1 c.id = some e) := by
  intro cs
  induction cs with
  | nil => intro m c e hc _ _; simp at hc
  | cons d ds ih =>
    intro m c e hc hnd hfe
    have hnd1 : d.id ∉ ds.map Cart.id := (List.nodup_cons.mp hnd).1
    have hnd2 : (ds.map Cart.id).Nodup := (List.nodup_cons.mp hnd).2
    rcases List.mem_cons.mp hc with rfl | hc'
    · -- the record is the head of the fetch
      constructor
      · intro hch
        rw [upsertLoop_cons_mod hfe hch]
        refine ⟨List.mem_cons_self _ _, ?_⟩
        show findEntry (upsertLoop (insertCart m c.id ⟨c.date, e.userId, c.products⟩) ds).1
          c.id = _
        rw [upsertLoop_findEntry_not_mem ds _ c.id hnd1]
        exact findEntry_insert_self m c.id ⟨c.date, e.userId, c.products⟩
      · intro hch
        rw [upsertLoop_cons_unch hfe (by rw [hch])]
        refine ⟨List.mem_cons_self _ _, ?_⟩
        show findEntry (upsertLoop m ds).1 c.id = some e
        rw [upsertLoop_findEntry_not_mem ds m c.id hnd1]
        exact hfe
    · -- the record sits in the tail of the fetch
      have hdc : d.id ≠ c.id := by
        intro he
        exact hnd1 (he ▸ List.mem_map_of_mem Cart.id hc')
      cases hfd : findEntry m d.id with
      | none =>
        rw [upsertLoop_cons_none hfd]
        have hfe' : findEntry (insertCart m d.id (entryOf d)) c.id = some e := by
          rw [findEntry_insert_other d.id c.id (entryOf d) (Ne.symm hdc) m]
          exact hfe
        have hrec := ih (insertCart m d.id (entryOf d)) c e hc' hnd2 hfe'
        exact ⟨fun hch => (hrec.1 hch), fun hch => (hrec.2 hch)⟩
      | some old =>
        by_cases hch' : (old.date != d.date || products_have_changed old.products d.products) = true
        · rw [upsertLoop_cons_mod hfd hch']
          have hfe' : findEntry (insertCart m d.id ⟨d.date, old.userId, d.products⟩) c.id =
              some e := by
            rw [findEntry_insert_other d.id c.id ⟨d.date, old.userId, d.products⟩
              (Ne.symm hdc) m]
            exact hfe
          have hrec := ih (insertCart m d.id ⟨d.date, old.userId, d.products⟩) c e hc' hnd2 hfe'
          constructor
          · intro hch
            exact ⟨List.mem_cons_of_mem d (hrec.1 hch).1, (hrec.1 hch).2⟩
          · intro hch
            exact ⟨(hrec.2 hch).1, (hrec.2 hch).2⟩
        · rw [upsertLoop_cons_unch hfd (Bool.not_eq_true _ ▸ hch')]
          have hrec := ih m c e hc' hnd2 hfe
          constructor
          · intro hch
            exact ⟨(hrec.1 hch).1, (hrec.1 hch).2⟩
          · intro hch
            exact ⟨List.mem_cons_of_mem d (hrec.2 hch).1, (hrec.2 hch).2⟩

-- ===========================================================================
-- Detector: branch equations
-- ===========================================================================

/-- Warm-poll unfolding of the detector. -/
theorem detect_warm (now : String) (state : PipelineState) (api_carts : List Cart)
    (hwarm : state.metadata.last_update ≠ none) :
    compare_and_detect_changes now state api_carts =
      (⟨(upsertLoop (state.carts.filter
            (fun kv => (api_carts.map Cart.id).contains kv.1)) api_carts).2.1,
        (upsertLoop (state.carts.filter
            (fun kv => (api_carts.map Cart.id).contains kv.1)) api_carts).2.2.1,
        (state.carts.filter (fun kv => !((api_carts.map Cart.id).contains kv.1))).map
          (fun kv => (⟨kv.1, kv.2.userId, now, kv.2.products, 0⟩ : Cart)),
        (upsertLoop (state.carts.filter
            (fun kv => (api_carts.map Cart.id).contains kv.1)) api_carts).2.2.2,
        false⟩,
       ⟨(upsertLoop (state.carts.filter
            (fun kv => (api_carts.map Cart.id).contains kv.1)) api_carts).1,
        state.metadata⟩) := by
  unfold compare_and_detect_changes
  rw [if_neg hwarm]

/-- Cold-start carts mapping: the empty snapshot is initialized from the
fetch in order. -/
theorem detect_cold_carts (now : String) (state : PipelineState) (api_carts : List Cart)
    (hcold : state.metadata.last_update = none) (hempty : state.carts = [])
    (hnd : (api_carts.map Cart.id).Nodup) :
    (compare_and_detect_changes now state api_carts).2.carts =
      api_carts.map (fun c => (c.id, entryOf c)) := by
  simp [compare_and_detect_changes, hcold, hempty]
  rw [foldl_insert_fresh api_carts [] (by simp) hnd]
  simp

-- ===========================================================================
-- Claim C4: deletion detection and unchanged classification
-- ===========================================================================

/-- C4: on a warm poll over a fetch with unique ids, every id stored in the
snapshot but absent from the fetch is classified deleted — its synthetic
record is built from the last stored projection (userId and products) with
the detection-time timestamp substituted for the missing source date — and
the id is removed from the snapshot; and every fetched record whose id is
stored with the same date and the same canonical products signature is
classified unchanged. -/
theorem C4_deletion_detection (now : String) (state : PipelineState) (api_carts : List Cart)
    (hwarm : state.metadata.last_update ≠ none)
    (hnd : (api_carts.map Cart.id).Nodup) :
    (∀ k e, findEntry state.carts k = some e → k ∉ api_carts.map Cart.id →
      (⟨k, e.userId, now, e.products, 0⟩ : Cart) ∈
        (compare_and_detect_changes now state api_carts).1.deleted ∧
      findEntry (compare_and_detect_changes now state api_carts).2.carts k = none) ∧
    (∀ c ∈ api_carts, ∀ e, findEntry state.carts c.id = some e →
      e.date = c.date →
      calculate_products_signature e.products = calculate_products_signature c.products →
      c ∈ (compare_and_detect_changes now state api_carts).1.unchanged) := by
  rw [detect_warm now state api_carts hwarm]
  constructor
  · intro k e hfe hk
    have hc : (api_carts.map Cart.id).contains k = false := by
      cases hcc : (api_carts.map Cart.id).contains k
      · rfl
      · exact absurd (List.elem_iff.mp hcc) hk
    constructor
    · show _ ∈ (state.carts.filter (fun kv => !((api_carts.map Cart.id).contains kv.1))).map
        (fun kv => (⟨kv.1, kv.2.userId, now, kv.2.products, 0⟩ : Cart))
      refine List.mem_map.mpr ⟨(k, e), List.mem_filter.mpr ⟨findEntry_mem _ _ _ hfe, ?_⟩, rfl⟩
      show (!((api_carts.map Cart.id).contains k)) = true
      rw [hc]
      rfl
    · show findEntry (upsertLoop (state.carts.filter
        (fun kv => (api_carts.map Cart.id).contains kv.1)) api_carts).1 k = none
      rw [upsertLoop_findEntry_not_mem api_carts _ k hk]
      exact findEntry_filter_not_mem (api_carts.map Cart.id) k hk state.carts
  · intro c hc e hfe hdate hsig
    have hcid : c.id ∈ api_carts.map Cart.id := List.mem_map_of_mem Cart.id hc
    have hkept : findEntry (state.carts.filter
        (fun kv => (api_carts.map Cart.id).contains kv.1)) c.id = some e := by
      rw [findEntry_filter_mem (api_carts.map Cart.id) c.id hcid state.carts]
      exact hfe
    have h1 : (e.date != c.date) = false := bne_eq_false_iff_eq.mpr hdate
    have h2 : products_have_changed e.products c.products = false := by
      unfold products_have_changed
      exact bne_eq_false_iff_eq.mpr hsig
    have hflag : (e.date != c.date || products_have_changed e.products c.products) = false := by
      rw [h1, h2]
      rfl
    exact ((upsertLoop_existing api_carts _ c e hc hnd hkept).2 hflag).1

/-- C4 witness: snapshot ids 1 and 3, fetch returning only id 1 byte-identical
to its stored state. -/
theorem C4_witness :
    (⟨3, 9, "T", [pD], 0⟩ : Cart) ∈ (compare_and_detect_changes "T" stC4 apiC4).1.deleted ∧
    findEntry (compare_and_detect_changes "T" stC4 apiC4).2.carts 3 = none ∧
    (⟨1, 7, "d1", [pC], 0⟩ : Cart) ∈ (compare_and_detect_changes "T" stC4 apiC4).1.unchanged := by
  have h := C4_deletion_detection "T" stC4 apiC4 (by decide) (by decide)
  refine ⟨(h.1 3 ⟨"d3", 9, [pD]⟩ rfl (by decide)).1,
    (h.1 3 ⟨"d3", 9, [pD]⟩ rfl (by decide)).2,
    h.2 ⟨1, 7, "d1", [pC], 0⟩ (by decide) ⟨"d1", 7, [pC]⟩ rfl rfl rfl⟩

-- ===========================================================================
-- Claim C5: modified vs unchanged classification and the stored entry
-- ===========================================================================

/-- C5, counterexample: the fetched cart changes both its date and its
userId; it is classified modified, but the stored entry is not overwritten
with the fetched record's projection — the stored userId 7 survives instead
of the fetched userId 8. -/
theorem C5_counterexample :
    cartC5 ∈ (compare_and_detect_changes "T" stC5 [cartC5]).1.modified ∧
    findEntry (compare_and_detect_changes "T" stC5 [cartC5]).2.carts cartC5.id ≠
      some ⟨cartC5.date, cartC5.userId, cartC5.products⟩ ∧
    findEntry (compare_and_detect_changes "T" stC5 [cartC5]).2.carts cartC5.id =
      some ⟨cartC5.date, 7, cartC5.products⟩ := by decide

/-- C5 (amended): on a warm poll over a fetch with unique ids, a fetched
record whose id is stored is classified modified when its date or canonical
products signature differs from the stored one, and then the stored entry's
date and products are overwritten with the fetched record's while the stored
userId is retained; otherwise it is classified unchanged and the stored entry
is left untouched. -/
theorem C5_modified_unchanged (now : String) (state : PipelineState) (api_carts : List Cart)
    (hwarm : state.metadata.last_update ≠ none)
    (hnd : (api_carts.map Cart.id).Nodup) :
    ∀ c ∈ api_carts, ∀ e, findEntry state.carts c.id = some e →
      ((e.date ≠ c.date ∨
          calculate_products_signature e.products ≠ calculate_products_signature c.products) →
        c ∈ (compare_and_detect_changes now state api_carts).1.modified ∧
        findEntry (compare_and_detect_changes now state api_carts).2.carts c.id =
          some ⟨c.date, e.userId, c.products⟩) ∧
      ((e.date = c.date ∧
          calculate_products_signature e.products = calculate_products_signature c.products) →
        c ∈ (compare_and_detect_changes now state api_carts).1.unchanged ∧
        findEntry (compare_and_detect_changes now state api_carts).2.carts c.id = some e) := by
  rw [detect_warm now state api_carts hwarm]
  intro c hc e hfe
  have hcid : c.id ∈ api_carts.map Cart.id := List.mem_map_of_mem Cart.id hc
  have hkept : findEntry (state.carts.filter
      (fun kv => (api_carts.map Cart.id).contains kv.1)) c.id = some e := by
    rw [findEntry_filter_mem (api_carts.map Cart.id) c.id hcid state.carts]
    exact hfe
  have hmain := upsertLoop_existing api_carts _ c e hc hnd hkept
  constructor
  · intro hdiff
    have hflag : (e.date != c.date || products_have_changed e.products c.products) = true := by
      rcases hdiff with h | h
      · rw [bne_iff_ne.mpr h]
        rfl
      · have : products_have_changed e.products c.products = true := by
          unfold products_have_changed
          exact bne_iff_ne.mpr h
        rw [this, Bool.or_true]
    exact hmain.1 hflag
  · intro heq
    have h1 : (e.date != c.date) = false := bne_eq_false_iff_eq.mpr heq.1
    have h2 : products_have_changed e.products c.products = false := by
      unfold products_have_changed
      exact bne_eq_false_iff_eq.mpr heq.2
    have hflag : (e.date != c.date || products_have_changed e.products c.products) = false := by
      rw [h1, h2]
      rfl
    exact hmain.2 hflag

/-- C5 witness: a date change is classified modified and overwrites the
stored date and products, retaining the stored userId 7. -/
theorem C5_witness :
    cartC5 ∈ (compare_and_detect_changes "T" stC5 [cartC5]).1.modified ∧
    findEntry (compare_and_detect_changes "T" stC5 [cartC5]).2.carts cartC5.id =
      some ⟨cartC5.date, 7, cartC5.products⟩ := by
  have h := C5_modified_unchanged "T" stC5 [cartC5] (by decide) (by decide)
  exact (h cartC5 (by decide) ⟨"d1", 7, []⟩ rfl).1 (Or.inl (by decide))

-- ===========================================================================
-- Claim C9: snapshot ids track the fetch exactly
-- ===========================================================================

/-- C9: after every detector call — cold start (where a never-polled snapshot
has an empty carts mapping, per the snapshot lifecycle) or warm poll — on a
fetch with unique ids, the ids of the mutated snapshot's carts mapping are
exactly the fetched ids: every fetched id is present and every id absent
from the fetch has been removed. -/
theorem C9_snapshot_ids_match_fetch (now : String) (state : PipelineState)
    (api_carts : List Cart)
    (hinv : state.metadata.last_update = none → state.carts = [])
    (hnd : (api_carts.map Cart.id).Nodup) :
    ∀ k, (k ∈ (compare_and_detect_changes now state api_carts).2.carts.map Prod.fst ↔
      k ∈ api_carts.map Cart.id) := by
  intro k
  by_cases hcold : state.metadata.last_update = none
  · rw [detect_cold_carts now state api_carts hcold (hinv hcold) hnd]
    rw [List.map_map]
    constructor
    · intro h
      obtain ⟨c, hc, he⟩ := List.mem_map.mp h
      exact he ▸ List.mem_map_of_mem Cart.id hc
    · intro h
      obtain ⟨c, hc, he⟩ := List.mem_map.mp h
      exact List.mem_map.mpr ⟨c, hc, he⟩
  · rw [detect_warm now state api_carts hcold]
    show k ∈ (upsertLoop (state.carts.filter
      (fun kv => (api_carts.map Cart.id).contains kv.1)) api_carts).1.map Prod.fst ↔ _
    rw [upsertLoop_keys]
    constructor
    · rintro (h | h)
      · exact keys_filter_subset (api_carts.map Cart.id) state.carts k h
      · exact h
    · intro h
      exact Or.inr h

/-- C9 witness: after the warm poll, id 1 remains and id 3 is gone. -/
theorem C9_witness :
    (1 ∈ (compare_and_detect_changes "T" stC4 apiC4).2.carts.map Prod.fst ↔
      1 ∈ apiC4.map Cart.id) ∧
    (3 ∈ (compare_and_detect_changes "T" stC4 apiC4).2.carts.map Prod.fst ↔
      3 ∈ apiC4.map Cart.id) := by
  have h := C9_snapshot_ids_match_fetch "T" stC4 apiC4
    (fun hc => absurd hc (by decide)) (by decide)
  exact ⟨h 1, h 3⟩

-- ===========================================================================
-- Claims C1 and C10: deterministic, content-derived event ids
-- ===========================================================================

/-- C1: for any two cart records with equal id, equal date and equal
canonical products signature, building an event with the same change type
and metadata yields the same event_id, and that event_id is the fixed
prefix "cart_" + the cart id + "_" + the first 12 hex characters of the
content hash computed over (cart id, cart date, canonical signature) —
for an arbitrary hash function standing in for hashlib.md5 hexdigest. -/
theorem C1_event_id_idempotent (md5hex : String → String) (r1 r2 : Cart)
    (event_type extracted_at run_id now1 now2 : String)
    (hid : r1.id = r2.id) (hdate : r1.date = r2.date)
    (hsig : calculate_products_signature r1.products =
      calculate_products_signature r2.products) :
    (create_event md5hex now1 r1 event_type extracted_at run_id).event_id =
      (create_event md5hex now2 r2 event_type extracted_at run_id).event_id ∧
    (create_event md5hex now1 r1 event_type extracted_at run_id).event_id =
      "cart_" ++ natStr r1.id ++ "_" ++
        strTake (md5hex (natStr r1.id ++ "_" ++ r1.date ++ "_" ++
          calculate_products_signature r1.products)) 12 := by
  constructor
  · show generate_event_id md5hex r1 = generate_event_id md5hex r2
    simp only [generate_event_id, hid, hdate, hsig]
  · rfl

/-- C1 witness: identical carts with permuted products (distinct productIds)
get the same deterministic event id. -/
theorem C1_witness :
    ((create_event md5W "N1" cartW1 "cart_created" "X" "R").event_id =
      (create_event md5W "N2" cartW2 "cart_created" "X" "R").event_id) ∧
    ((create_event md5W "N1" cartW1 "cart_created" "X" "R").event_id =
      "cart_" ++ natStr cartW1.id ++ "_" ++
        strTake (md5W (natStr cartW1.id ++ "_" ++ cartW1.date ++ "_" ++
          calculate_products_signature cartW1.products)) 12) :=
  C1_event_id_idempotent md5W cartW1 cartW2 "cart_created" "X" "R" "N1" "N2"
    rfl rfl (by decide)

/-- C10: the event_id depends only on the cart's id, date and products: for
carts agreeing on those three fields, events built with any change types,
extraction timestamps, run ids and publish times carry the identical
event_id, which is `generate_event_id` of the cart — in particular a
cart_created and a later cart_modified or cart_deleted event with identical
payload content are indistinguishable by event_id. -/
theorem C10_event_id_content_only (md5hex : String → String) (c1 c2 : Cart)
    (t1 t2 x1 x2 rid1 rid2 now1 now2 : String)
    (hid : c1.id = c2.id) (hdate : c1.date = c2.date)
    (hprod : c1.products = c2.products) :
    (create_event md5hex now1 c1 t1 x1 rid1).event_id =
      (create_event md5hex now2 c2 t2 x2 rid2).event_id ∧
    (create_event md5hex now1 c1 t1 x1 rid1).event_id = generate_event_id md5hex c1 := by
  constructor
  · show generate_event_id md5hex c1 = generate_event_id md5hex c2
    simp only [generate_event_id, hid, hdate, hprod]
  · rfl

/-- C10 witness: a created and a deleted event from the same cart share the
event id. -/
theorem C10_witness :
    ((create_event md5W "N1" cartW1 "cart_created" "X1" "R1").event_id =
      (create_event md5W "N2" cartW1 "cart_deleted" "X2" "R2").event_id) ∧
    ((create_event md5W "N1" cartW1 "cart_created" "X1" "R1").event_id =
      generate_event_id md5W cartW1) :=
  C10_event_id_content_only md5W cartW1 cartW1 "cart_created" "cart_deleted"
    "X1" "X2" "R1" "R2" "N1" "N2" rfl rfl rfl

-- ===========================================================================
-- Claim C6: retry exhaustion routes to the dead letter sink
-- ===========================================================================

/-- Under an always-failing broker the retry loop returns failure after
exactly the retry budget's attempts. -/
theorem publishGo_all_fail (attemptOk : Nat → Bool) (hfail : ∀ n, attemptOk n = false) :
    ∀ fuel rc, fuel = MAX_PUBLISH_RETRIES + 1 - rc → rc ≤ MAX_PUBLISH_RETRIES →
      publishGo attemptOk fuel rc = (false, MAX_PUBLISH_RETRIES + 1 - rc) := by
  intro fuel
  induction fuel with
  | zero =>
    intro rc h1 h2
    exfalso
    unfold MAX_PUBLISH_RETRIES at h1 h2
    omega
  | succ f ih =>
    intro rc h1 h2
    simp only [publishGo, hfail rc, Bool.false_eq_true, if_false]
    by_cases hrc : rc + 1 ≤ MAX_PUBLISH_RETRIES
    · rw [if_pos hrc, ih (rc + 1) (by unfold MAX_PUBLISH_RETRIES at *; omega) hrc]
      have harith : MAX_PUBLISH_RETRIES + 1 - (rc + 1) + 1 = MAX_PUBLISH_RETRIES + 1 - rc := by
        unfold MAX_PUBLISH_RETRIES at *
        omega
      rw [← harith]
    · rw [if_neg hrc]
      have harith : MAX_PUBLISH_RETRIES + 1 - rc = 1 := by
        unfold MAX_PUBLISH_RETRIES at *
        omega
      rw [harith]

/-- An event whose every publish attempt fails comes back failed after
MAX_PUBLISH_RETRIES + 1 attempts (the initial attempt plus the retries). -/
theorem publish_all_fail (attemptOk : Nat → Bool) (hfail : ∀ n, attemptOk n = false) :
    publish_event_to_pubsub attemptOk 0 = (false, MAX_PUBLISH_RETRIES + 1) := by
  have h := publishGo_all_fail attemptOk hfail (MAX_PUBLISH_RETRIES + 1 - 0) 0 rfl
    (by unfold MAX_PUBLISH_RETRIES; omega)
  simpa [publish_event_to_pubsub] using h

/-- Closed form of the per-event publish loop: counts and dead letters are
the filters of the batch by per-event outcome. -/
theorem publishLoop_spec (attemptOk : EventRec → Nat → Bool) :
    ∀ events : List EventRec,
      publishLoop attemptOk events =
        (⟨(events.filter (fun e => (publish_event_to_pubsub (attemptOk e) 0).1)).length,
          (events.filter (fun e => !(publish_event_to_pubsub (attemptOk e) 0).1)).length,
          (events.filter (fun e => !(publish_event_to_pubsub (attemptOk e) 0).1)).length⟩,
         events.filter (fun e => !(publish_event_to_pubsub (attemptOk e) 0).1)) := by
  intro events
  induction events with
  | nil => rfl
  | cons e es ih =>
    simp only [publishLoop, ih]
    by_cases h : (publish_event_to_pubsub (attemptOk e) 0).1 = true
    · rw [if_pos h]
      simp [List.filter_cons, h]
    · have h' : (publish_event_to_pubsub (attemptOk e) 0).1 = false := by
        cases hh : (publish_event_to_pubsub (attemptOk e) 0).1
        · rfl
        · exact absurd hh h
      rw [if_neg h]
      simp [List.filter_cons, h']

/-- Splitting a list by a boolean predicate preserves its length. -/
theorem length_filter_split (p : EventRec → Bool) :
    ∀ l : List EventRec,
      (l.filter p).length + (l.filter (fun e => !(p e))).length = l.length := by
  intro l
  induction l with
  | nil => rfl
  | cons e es ih =>
    by_cases h : p e = true
    · simp [List.filter_cons, h]
      omega
    · have h' : p e = false := by
        cases hh : p e
        · rfl
        · exact absurd hh h
      simp [List.filter_cons, h']
      omega

/-- C6: an event whose publish attempt fails on every try stops after the
attempt ceiling (MAX_PUBLISH_RETRIES retries after the initial attempt), is
appended to the dead-letter sink exactly once and counted once in both the
failed and dead-letter counts; the batch result stays total — every event of
the batch receives an independent success-or-failure outcome (no exception
escapes: the source catches every publish error and the batch loop never
aborts). -/
theorem C6_retry_exhaustion_dead_letter (attemptOk : EventRec → Nat → Bool)
    (events : List EventRec) (e : EventRec)
    (hfail : ∀ n, attemptOk e n = false) (honce : events.count e = 1) :
    publish_event_to_pubsub (attemptOk e) 0 = (false, MAX_PUBLISH_RETRIES + 1) ∧
    (publish_events (some attemptOk) events).2.count e = 1 ∧
    (publish_events (some attemptOk) events).1.success +
      (publish_events (some attemptOk) events).1.failed = events.length ∧
    (publish_events (some attemptOk) events).1.dead_letter =
      (publish_events (some attemptOk) events).1.failed ∧
    (publish_events (some attemptOk) events).1.failed =
      (publish_events (some attemptOk) events).2.length := by
  have hne : events ≠ [] := by
    intro h
    rw [h] at honce
    simp at honce
  have hemp : events.isEmpty = false := by
    cases events
    · exact absurd rfl hne
    · rfl
  have hpe : publish_events (some attemptOk) events = publishLoop attemptOk events := by
    simp [publish_events, hemp]
  have hall := publish_all_fail (attemptOk e) hfail
  have hfalse : (publish_event_to_pubsub (attemptOk e) 0).1 = false := by
    rw [hall]
  rw [hpe, publishLoop_spec]
  refine ⟨hall, ?_, ?_, rfl, rfl⟩
  · show (events.filter (fun e' => !(publish_event_to_pubsub (attemptOk e') 0).1)).count e = 1
    have hp : (!(publish_event_to_pubsub (attemptOk e) 0).1) = true := by
      rw [hfalse]
      rfl
    rw [@List.count_filter EventRec _ _
      (fun e' => !(publish_event_to_pubsub (attemptOk e') 0).1) e events hp]
    exact honce
  · exact length_filter_split _ events

/-- C6 witness: a single-event batch against an always-failing broker. -/
theorem C6_witness :
    publish_event_to_pubsub (atkW evW) 0 = (false, MAX_PUBLISH_RETRIES + 1) ∧
    (publish_events (some atkW) [evW]).2.count evW = 1 ∧
    (publish_events (some atkW) [evW]).1.success +
      (publish_events (some atkW) [evW]).1.failed = [evW].length ∧
    (publish_events (some atkW) [evW]).1.dead_letter =
      (publish_events (some atkW) [evW]).1.failed ∧
    (publish_events (some atkW) [evW]).1.failed =
      (publish_events (some atkW) [evW]).2.length :=
  C6_retry_exhaustion_dead_letter atkW [evW] evW (fun _ => rfl) (by decide)

-- ===========================================================================
-- Claim C7: a record missing its identifier aborts the cycle
-- ===========================================================================

/-- Building the fetched-id set fails as soon as any record lacks "id". -/
theorem extractIds_none :
    ∀ raw : List RawCart, (∃ r ∈ raw, r.id = none) → extractIds raw = none := by
  intro raw
  induction raw with
  | nil =>
    intro h
    obtain ⟨r, hr, _⟩ := h
    simp at hr
  | cons r rs ih =>
    intro h
    obtain ⟨r', hr', hid⟩ := h
    rcases List.mem_cons.mp hr' with rfl | hmem
    · simp [extractIds, hid]
    · cases hrid : r.id with
      | none => simp [extractIds, hrid]
      | some i => simp [extractIds, hrid, ih ⟨r', hmem, hid⟩]

/-- C7, counterexample: a fetch holding one well-formed record and one record
missing its identifier makes the detector raise (KeyError while building the
fetched-id set): the whole cycle aborts with an error — the well-formed
record is not classified and no per-record skip occurs, contradicting the
claimed per-record recovery. -/
theorem C7_counterexample :
    compare_and_detect_changes_raw "T" stC4 [rawGood, rawBad] =
      Except.error "KeyError: id" := rfl

/-- C7 (amended): if any fetched record is missing its identifier field, the
change detector raises a KeyError that propagates out of the detection cycle
(there is no per-record handling): the cycle aborts before classifying any
record. -/
theorem C7_missing_id_aborts (now : String) (state : PipelineState)
    (api_carts : List RawCart) (h : ∃ r ∈ api_carts, r.id = none) :
    ∃ msg, compare_and_detect_changes_raw now state api_carts = Except.error msg := by
  refine ⟨"KeyError: id", ?_⟩
  unfold compare_and_detect_changes_raw
  rw [extractIds_none api_carts h]

/-- C7 witness: the amended behavior at the concrete two-record fetch. -/
theorem C7_witness :
    ∃ msg, compare_and_detect_changes_raw "T" stC4 [rawGood, rawBad] =
      Except.error msg :=
  C7_missing_id_aborts "T" stC4 [rawGood, rawBad] ⟨rawBad, by decide, rfl⟩

-- ===========================================================================
-- Claim C8: atomic snapshot persistence
-- ===========================================================================

/-- C8: saving the snapshot writes the full serialization to a temporary
file and then renames it over the state file. At every intermediate point of
the trace — after each partial write of the temp file and after the rename —
the state file holds either the previously persisted serialized snapshot or
the new one, and is always loadable (a complete serialization of some
snapshot): no reader ever observes a partially written snapshot, an
interruption before the rename leaves the prior snapshot intact and an
interruption after the rename leaves the new snapshot in place, as the final
trace entry shows. -/
theorem C8_atomic_save (now : String) (st : PipelineState) (fs : FS)
    (old : PipelineState) (hold : fs.state_file = some (serializeState old)) :
    (∀ fs' ∈ save_state_trace now st fs,
      (fs'.state_file = some (serializeState old) ∨
        fs'.state_file = some (serializeState (bump_metadata now st))) ∧
      ∃ c, fs'.state_file = some c ∧ LoadableContent c) ∧
    (save_state_trace now st fs).getLast? =
      some ⟨some (serializeState (bump_metadata now st)), none⟩ := by
  constructor
  · intro fs' hmem
    simp only [save_state_trace, List.mem_append] at hmem
    rcases hmem with h | h
    · obtain ⟨k, _, hk⟩ := List.mem_map.mp h
      have hsf : fs'.state_file = fs.state_file := by
        rw [← hk]
      rw [hsf, hold]
      exact ⟨Or.inl rfl, serializeState old, rfl, old, rfl⟩
    · simp only [List.mem_singleton] at h
      rw [h]
      exact ⟨Or.inr rfl, serializeState (bump_metadata now st), rfl,
        bump_metadata now st, rfl⟩
  · simp only [save_state_trace]
    exact List.getLast?_concat _

/-- C8 witness: the concrete trace over the witness snapshot — the post-rename
entry holds the new serialized snapshot and is loadable, and it is the final
trace entry. -/
theorem C8_witness :
    (((⟨some (serializeState (bump_metadata "T" stW)), none⟩ : FS).state_file =
        some (serializeState stW) ∨
      (⟨some (serializeState (bump_metadata "T" stW)), none⟩ : FS).state_file =
        some (serializeState (bump_metadata "T" stW))) ∧
      ∃ c, (⟨some (serializeState (bump_metadata "T" stW)), none⟩ : FS).state_file =
        some c ∧ LoadableContent c) ∧
    (save_state_trace "T" stW fsW).getLast? =
      some ⟨some (serializeState (bump_metadata "T" stW)), none⟩ := by
  have h := C8_atomic_save "T" stW fsW stW rfl
  have hmem : (⟨some (serializeState (bump_metadata "T" stW)), none⟩ : FS) ∈
      save_state_trace "T" stW fsW := by
    simp only [save_state_trace]
    exact List.mem_append_right _ (List.mem_singleton_self _)
  exact ⟨h.1 _ hmem, h.2⟩
